import Mathlib

/-!
Verification of `shim.c` (aerospike-client-c).

A shallow embedding of `src/main/aerospike/shim.c`: the conversion between
records (`as_record`, polymorphic `as_val` values) and the flat bin arrays of
the wire client (`cl_bin`, tagged `cl_object`s), and the translation of write
and remove policies into `cl_write_parameters`.

Conventions of the embedding.

* A C enum the shim switches on is an inductive type with one constructor per
  `case` label of the source and one constructor carrying any other code.
* A pointer to a byte buffer is the list of bytes it points to; a C string is
  the list of its characters before the terminating NUL.
* Undefined behaviour of the C code (a read past the end of an array, a NULL
  dereference, a write past the end of a heap block, the use of an
  uninitialised variable) is an explicit `Fault` in `Except`.
* The loop counter `int i` is a `Nat`; it stays below `2^31` for every array
  this development evaluates.
-/

namespace Shim

/-! ## Data model -/

/-- Object tags of the wire client (`cl_type` of `citrusleaf/cl_types.h`).
The named constructors are the tags `shim.c` mentions; `CL_OTHER code` is any
other tag value (float, timestamp, digest, a blob kind the shim does not
name, ...). -/
inductive cl_type where
  | CL_NULL
  | CL_INT
  | CL_STR
  | CL_LIST
  | CL_MAP
  | CL_BLOB
  | CL_JAVA_BLOB
  | CL_CSHARP_BLOB
  | CL_PYTHON_BLOB
  | CL_RUBY_BLOB
  | CL_ERLANG_BLOB
  | CL_OTHER (code : Nat)
  deriving DecidableEq, Repr

/-- An `as_bytes`: its `len` bytes `value` and its sub-type code `type`. The
shim converts that code to and from `cl_type` without change
(`b->type = bin->object.type`, `citrusleaf_object_init_blob2(.., b->type)`),
so it is a `cl_type` here. -/
structure as_bytes where
  value : List Nat
  type : cl_type
  deriving DecidableEq, Repr

/-- Values of the client API (`as_val` and its subtypes), by the `type` field
that `as_record_tobins` switches on. `AS_OTHER code` is any value type the
switch has no case for. -/
inductive as_val where
  | AS_NIL
  | AS_INTEGER (i : Int)
  | AS_STRING (s : List Nat)
  | AS_LIST (elems : List as_val)
  | AS_MAP (entries : List (as_val × as_val))
  | AS_BYTES (b : as_bytes)
  | AS_OTHER (code : Nat)

/-- The union `u` of a `cl_object`: the member last written. `str` and `blob`
are both pointers, so reading either member of a pointer payload yields the
same bytes; `i64` and a pointer do not read as one another. -/
inductive cl_union where
  | uninit
  | i64 (v : Int)
  | str (p : List Nat)
  | blob (p : List Nat)
  deriving DecidableEq, Repr

/-- A `cl_object`: tag, size and payload. -/
structure cl_object where
  type : cl_type
  sz : Nat
  u : cl_union
  deriving DecidableEq, Repr

/-- A `cl_bin`: the name field (bytes) and the object. -/
structure cl_bin where
  bin_name : List Nat
  object : cl_object
  deriving DecidableEq, Repr

/-- An `as_bin` of a record: the name field (bytes) and the value pointer,
which may be NULL. -/
structure as_bin where
  name : List Nat
  value : Option as_val

/-- An `as_record`, reduced to `rec->bins`: `capacity` is `bins.capacity`,
`data` holds the entries `bins.data[0 .. bins.size)`, so `bins.size` is its
length. -/
structure as_record where
  capacity : Nat
  data : List as_bin

/-- The bin count `rec->bins.size`. -/
def as_record.size (r : as_record) : Nat := r.data.length

/-- Undefined behaviour the C code can run into. -/
inductive Fault where
  | record_bin_out_of_range (i : Nat)
  | bin_out_of_range (i : Nat)
  | null_value (i : Nat)
  | wrong_union_member
  | buffer_overread
  | heap_overflow
  | uninitialized_value
  deriving DecidableEq, Repr

/-- Modelled from the spec: the value codec (`as_serializer`, not under src),
"an opaque serializer with `serialize(value) -> bytes` and
`deserialize(bytes) -> value`". `deserialize` returns `none` when decoding
fails, in which case the output pointer `*val` is left as it was. -/
structure as_serializer where
  serialize : as_val → List Nat
  deserialize : List Nat → Option as_val

/-- What `shim.c` uses and does not define: the constant `AS_BIN_NAME_MAX`,
the platform's `sizeof(size_t)`, the sub-type code `bytes_new_type` that a
freshly constructed `as_bytes` carries, and the codec `msgpack` that
`as_msgpack_init` sets up. -/
structure Externals where
  AS_BIN_NAME_MAX : Nat
  sizeof_size_t : Nat
  bytes_new_type : cl_type
  msgpack : as_serializer

/-! ## Policies -/

/-- Generation modes (`as_policy_gen`): the three the shim has a `case` for,
and any other value. -/
inductive as_policy_gen where
  | AS_POLICY_GEN_EQ
  | AS_POLICY_GEN_GT
  | AS_POLICY_GEN_DUP
  | AS_POLICY_GEN_OTHER (code : Nat)
  deriving DecidableEq, Repr

/-- Replication modes (`as_policy_repl`): the two the shim has a `case` for,
and any other value. -/
inductive as_policy_repl where
  | AS_POLICY_REPL_ASYNC
  | AS_POLICY_REPL_ONESHOT
  | AS_POLICY_REPL_OTHER (code : Nat)
  deriving DecidableEq, Repr

/-- Write policy of the wire client (`cl_write_policy`). -/
inductive cl_write_policy where
  | CL_WRITE_ASYNC
  | CL_WRITE_ONESHOT
  | CL_WRITE_RETRY
  | CL_WRITE_OTHER (code : Nat)
  deriving DecidableEq, Repr

/-- The fields of `as_policy_write` the shim reads. -/
structure as_policy_write where
  unique : Bool
  gen : as_policy_gen
  generation : Nat
  timeout : Nat
  repl : as_policy_repl
  deriving DecidableEq, Repr

/-- The fields of `as_policy_remove` the shim reads. -/
structure as_policy_remove where
  gen : as_policy_gen
  generation : Nat
  timeout : Nat
  repl : as_policy_repl
  deriving DecidableEq, Repr

/-- The fields of `cl_write_parameters` the shim writes. -/
structure cl_write_parameters where
  unique : Bool
  unique_bin : Bool
  use_generation : Bool
  use_generation_gt : Bool
  use_generation_dup : Bool
  generation : Nat
  timeout_ms : Nat
  record_ttl : Nat
  w_pol : cl_write_policy
  deriving DecidableEq, Repr

/-- `as_policy_write_towp` (shim.c:182-226). A NULL `policy` or `wp` is
`none`; the result is the target structure after the call (`none` when there
is no target). -/
def as_policy_write_towp (policy : Option as_policy_write)
    (wp : Option cl_write_parameters) : Option cl_write_parameters :=
  match policy, wp with
  | none, wp => wp
  | some _, none => none
  | some policy, some wp =>
    let wp := { wp with unique := policy.unique }
    let wp := { wp with unique_bin := false }
    let wp := { wp with use_generation := false }
    let wp := { wp with use_generation_gt := false }
    let wp := { wp with use_generation_dup := false }
    let wp := { wp with timeout_ms := policy.timeout }
    let wp := { wp with record_ttl := 0 }
    let wp :=
      match policy.gen with
      | .AS_POLICY_GEN_EQ =>
        { wp with generation := policy.generation, use_generation := true }
      | .AS_POLICY_GEN_GT =>
        { wp with generation := policy.generation, use_generation_gt := true }
      | .AS_POLICY_GEN_DUP =>
        { wp with generation := policy.generation, use_generation_dup := true }
      | .AS_POLICY_GEN_OTHER _ => wp
    let wp :=
      match policy.repl with
      | .AS_POLICY_REPL_ASYNC => { wp with w_pol := .CL_WRITE_ASYNC }
      | .AS_POLICY_REPL_ONESHOT => { wp with w_pol := .CL_WRITE_ONESHOT }
      | .AS_POLICY_REPL_OTHER _ => { wp with w_pol := .CL_WRITE_RETRY }
    some wp

/-- `as_policy_remove_towp` (shim.c:228-272). -/
def as_policy_remove_towp (policy : Option as_policy_remove)
    (wp : Option cl_write_parameters) : Option cl_write_parameters :=
  match policy, wp with
  | none, wp => wp
  | some _, none => none
  | some policy, some wp =>
    let wp := { wp with unique := false }
    let wp := { wp with unique_bin := false }
    let wp := { wp with use_generation := false }
    let wp := { wp with use_generation_gt := false }
    let wp := { wp with use_generation_dup := false }
    let wp := { wp with timeout_ms := policy.timeout }
    let wp := { wp with record_ttl := 0 }
    let wp :=
      match policy.gen with
      | .AS_POLICY_GEN_EQ =>
        { wp with generation := policy.generation, use_generation := true }
      | .AS_POLICY_GEN_GT =>
        { wp with generation := policy.generation, use_generation_gt := true }
      | .AS_POLICY_GEN_DUP =>
        { wp with generation := policy.generation, use_generation_dup := true }
      | .AS_POLICY_GEN_OTHER _ => wp
    let wp :=
      match policy.repl with
      | .AS_POLICY_REPL_ASYNC => { wp with w_pol := .CL_WRITE_ASYNC }
      | .AS_POLICY_REPL_ONESHOT => { wp with w_pol := .CL_WRITE_ONESHOT }
      | .AS_POLICY_REPL_OTHER _ => { wp with w_pol := .CL_WRITE_RETRY }
    some wp

/-! ## Status adapter -/

/-- Statuses of the client API (`as_status`) that the shim produces. -/
inductive as_status where
  | AEROSPIKE_OK
  | AEROSPIKE_ERR
  deriving DecidableEq, Repr

/-- The field of `as_error` the shim writes. -/
structure as_error where
  code : as_status
  deriving DecidableEq, Repr

/-- `as_error_fromrc` (shim.c:21-25): the error object after the call and the
returned status. -/
def as_error_fromrc (err : as_error) (rc : Int) : as_error × as_status :=
  let err := { err with code := if rc ≠ 0 then .AEROSPIKE_ERR else .AEROSPIKE_OK }
  (err, err.code)

/-! ## Helpers of the wire client and of the record API -/

/-- A C string read from a character array: the characters before the first
NUL. -/
def cstr (field : List Nat) : List Nat := field.takeWhile (fun c => c != 0)

/-- The C library's `memcpy(dst, src, n)` on byte arrays: the first `n` bytes
of `dst` become the first `n` bytes of `src`. -/
def memcpy (dst src : List Nat) (n : Nat) : List Nat := src.take n ++ dst.drop n

/-- Reading `u.i64`. -/
def cl_union.read_i64 : cl_union → Except Fault Int
  | .i64 v => .ok v
  | .uninit => .error .uninitialized_value
  | _ => .error .wrong_union_member

/-- Reading `u.str` as a C string. A pointer written as a blob is not
NUL-terminated: the string ends at its first NUL byte, if it has one. -/
def cl_union.read_str : cl_union → Except Fault (List Nat)
  | .str p => .ok p
  | .blob p => if p.contains 0 then .ok (cstr p) else .error .buffer_overread
  | .uninit => .error .uninitialized_value
  | .i64 _ => .error .wrong_union_member

/-- Reading `n` bytes at `u.blob`. A pointer written as a C string has the
string's characters and its terminating NUL behind it. -/
def cl_union.read_blob (n : Nat) : cl_union → Except Fault (List Nat)
  | .blob p => if n ≤ p.length then .ok (p.take n) else .error .buffer_overread
  | .str p => if n ≤ p.length + 1 then .ok ((p ++ [0]).take n) else .error .buffer_overread
  | .uninit => .error .uninitialized_value
  | .i64 _ => .error .wrong_union_member

/-- Modelled from the spec: `citrusleaf_object_init_null` (wire client, not
under src), "`Nil` → object tag `Null`". The union is not written. -/
def citrusleaf_object_init_null (o : cl_object) : cl_object :=
  { o with type := .CL_NULL, sz := 0 }

/-- Modelled from the spec: `citrusleaf_object_init_int` (wire client, not
under src), "`Integer(n)` → object tag `Int`, payload `n`". -/
def citrusleaf_object_init_int (_o : cl_object) (i : Int) : cl_object :=
  { type := .CL_INT, sz := 8, u := .i64 i }

/-- Modelled from the spec: `citrusleaf_object_init_str` (wire client, not
under src), "`String(s)` → object tag `Str`, payload a reference to `s`'s
bytes". -/
def citrusleaf_object_init_str (_o : cl_object) (str : List Nat) : cl_object :=
  { type := .CL_STR, sz := str.length, u := .str str }

/-- Modelled from the spec: `citrusleaf_object_init_blob2` (wire client, not
under src), "object tag `Blob` with sub-type ...; payload is the encoded
buffer". -/
def citrusleaf_object_init_blob2 (_o : cl_object) (blob : List Nat) (len : Nat)
    (t : cl_type) : cl_object :=
  { type := t, sz := len, u := .blob blob }

/-- The name field a record stores for a C string `name`: at most `n`
characters, NUL-padded to `n` bytes. -/
def name_field (n : Nat) (name : List Nat) : List Nat :=
  (cstr name).take n ++ List.replicate (n - (cstr name).length) 0

/-- Replace the value of the first bin named `name`; `none` when there is no
such bin. -/
def as_bins_replace (name : List Nat) (value : Option as_val) :
    List as_bin → Option (List as_bin)
  | [] => none
  | b :: bs =>
    if cstr b.name = cstr name then some ({ b with value := value } :: bs)
    else (as_bins_replace name value bs).map (fun bs1 => b :: bs1)

/-- Modelled from the spec: `as_record_set` (record API, not under src), the
setter `set_value` of the "Record boundary": a record is "an ordered
collection of named bins, each bin holding exactly one tagged value", with "a
fixed bin capacity"; populating more bins than the capacity is silently
dropped. The bin named `name` takes the value; when there is none and the
record has room, a new bin is appended. -/
def as_record_set (lib : Externals) (r : as_record) (name : List Nat)
    (value : Option as_val) : as_record :=
  match as_bins_replace name value r.data with
  | some data => { r with data := data }
  | none =>
    if r.size < r.capacity then
      { r with data := r.data ++ [{ name := name_field lib.AS_BIN_NAME_MAX name, value := value }] }
    else r

/-- Modelled from the spec: `as_record_set_nil` (record API, not under src),
"set bin to `Nil`". -/
def as_record_set_nil (lib : Externals) (r : as_record) (name : List Nat) : as_record :=
  as_record_set lib r name (some .AS_NIL)

/-- Modelled from the spec: `as_record_set_int64` (record API, not under
src), "set bin to `Integer`". -/
def as_record_set_int64 (lib : Externals) (r : as_record) (name : List Nat) (i : Int) :
    as_record :=
  as_record_set lib r name (some (.AS_INTEGER i))

/-- Modelled from the spec: `as_record_set_str` (record API, not under src),
"set bin to `String`, duplicating the bytes". -/
def as_record_set_str (lib : Externals) (r : as_record) (name : List Nat) (s : List Nat) :
    as_record :=
  as_record_set lib r name (some (.AS_STRING s))

/-- Modelled from the spec: `as_record_set_bytes` (record API, not under
src), the setter `set_bytes` of the "Record boundary". -/
def as_record_set_bytes (lib : Externals) (r : as_record) (name : List Nat) (b : as_bytes) :
    as_record :=
  as_record_set lib r name (some (.AS_BYTES b))

/-- Modelled from the spec: the record API's lookup by name ("per-index bin
name and value"): the value pointer of the first bin named `name`. -/
def as_record_get (r : as_record) (name : List Nat) : Option (Option as_val) :=
  (r.data.find? (fun b => cstr b.name = cstr name)).map (fun b => b.value)

/-- Modelled from the spec: `as_bytes_empty_new` (value API, not under src):
an empty `as_bytes` (the capacity is not modelled). -/
def as_bytes_empty_new (lib : Externals) (_capacity : Nat) : as_bytes :=
  { value := [], type := lib.bytes_new_type }

/-- Modelled from the spec: `as_bytes_append` (value API, not under src):
"copies the payload". -/
def as_bytes_append (b : as_bytes) (buf : List Nat) : as_bytes :=
  { b with value := b.value ++ buf }

/-- Modelled from the spec: `as_bytes_new` (value API, not under src): an
`as_bytes` that owns the buffer `raw` of `len` bytes. -/
def as_bytes_new (lib : Externals) (raw : List Nat) : as_bytes :=
  { value := raw, type := lib.bytes_new_type }

/-! ## Bin converter -/

/-- The object `as_record_tobins` leaves in a destination bin for the value
`v` (the `switch` of shim.c:32-80); `o` is the object the bin held before. -/
def as_record_tobins_object (lib : Externals) (o : cl_object) (v : as_val) : cl_object :=
  match v with
  | .AS_NIL => citrusleaf_object_init_null o
  | .AS_INTEGER i => citrusleaf_object_init_int o i
  | .AS_STRING s => citrusleaf_object_init_str o s
  | .AS_LIST _ =>
    let buffer := lib.msgpack.serialize v
    citrusleaf_object_init_blob2 o buffer buffer.length .CL_LIST
  | .AS_MAP _ =>
    let buffer := lib.msgpack.serialize v
    citrusleaf_object_init_blob2 o buffer buffer.length .CL_MAP
  | .AS_BYTES b => citrusleaf_object_init_blob2 o b.value b.value.length b.type
  | .AS_OTHER _ => o

/-- One iteration of the loop of `as_record_tobins` (shim.c:31-80) at index
`i`: `rbin` is `rec->bins.data`, `bins` the destination array. -/
def as_record_tobins_step (lib : Externals) (rbin : List as_bin) (i : Nat)
    (bins : List cl_bin) : Except Fault (List cl_bin) :=
  match rbin[i]? with
  | none => .error (.record_bin_out_of_range i)
  | some rb =>
    match bins[i]? with
    | none => .error (.bin_out_of_range i)
    | some b =>
      let b := { b with bin_name := memcpy b.bin_name rb.name lib.AS_BIN_NAME_MAX }
      match rb.value with
      | none => .error (.null_value i)
      | some v => .ok (bins.set i { b with object := as_record_tobins_object lib b.object v })

/-- The loop `for (i = ..; i < nbins; i++)` of `as_record_tobins`, with `k`
iterations left and the counter at `i`. -/
def as_record_tobins_loop (lib : Externals) (rbin : List as_bin) :
    Nat → Nat → List cl_bin → Except Fault (List cl_bin)
  | 0, _, bins => .ok bins
  | k + 1, i, bins =>
    match as_record_tobins_step lib rbin i bins with
    | .error e => .error e
    | .ok bins1 => as_record_tobins_loop lib rbin k (i + 1) bins1

/-- `as_record_tobins` (shim.c:27-82): the destination array after the
call. -/
def as_record_tobins (lib : Externals) (rec : as_record) (bins : List cl_bin)
    (nbins : Nat) : Except Fault (List cl_bin) :=
  as_record_tobins_loop lib rec.data nbins 0 bins

/-- One iteration of the loop of `as_record_frombins` (shim.c:89-125) on the
bin `bin`. -/
def as_record_frombins_step (lib : Externals) (r : as_record) (bin : cl_bin) :
    Except Fault as_record :=
  match bin.object.type with
  | .CL_NULL => .ok (as_record_set_nil lib r bin.bin_name)
  | .CL_INT =>
    match bin.object.u.read_i64 with
    | .error e => .error e
    | .ok i => .ok (as_record_set_int64 lib r bin.bin_name i)
  | .CL_STR =>
    match bin.object.u.read_str with
    | .error e => .error e
    | .ok s => .ok (as_record_set_str lib r bin.bin_name s)
  | .CL_LIST | .CL_MAP =>
    match bin.object.u.read_blob bin.object.sz with
    | .error e => .error e
    | .ok buffer =>
      let val : Option as_val := none
      let val :=
        match lib.msgpack.deserialize buffer with
        | some v => some v
        | none => val
      .ok (as_record_set lib r bin.bin_name val)
  | _ =>
    let b := as_bytes_empty_new lib bin.object.sz
    match bin.object.u.read_blob bin.object.sz with
    | .error e => .error e
    | .ok payload =>
      let b := as_bytes_append b payload
      .ok (as_record_set_bytes lib r bin.bin_name b)

/-- The loop `for (i = ..; i < n; i++)` of `as_record_frombins`, with `k`
iterations left and the counter at `i`. -/
def as_record_frombins_loop (lib : Externals) (bins : List cl_bin) :
    Nat → Nat → as_record → Except Fault as_record
  | 0, _, r => .ok r
  | k + 1, i, r =>
    match bins[i]? with
    | none => .error (.bin_out_of_range i)
    | some bin =>
      match as_record_frombins_step lib r bin with
      | .error e => .error e
      | .ok r1 => as_record_frombins_loop lib bins k (i + 1) r1

/-- `as_record_frombins` (shim.c:85-129): the record after the call. -/
def as_record_frombins (lib : Externals) (r : as_record) (bins : List cl_bin)
    (nbins : Nat) : Except Fault as_record :=
  let n := if nbins < r.capacity then nbins else r.capacity
  as_record_frombins_loop lib bins n 0 r

/-- `as_val_frombin` (shim.c:132-180): the returned pointer, `none` for
NULL. In the last case `raw` is a heap block of `sizeof(bin->object.sz)`
bytes, into which `memcpy` writes `bin->object.sz` bytes. -/
def as_val_frombin (lib : Externals) (ser : as_serializer) (bin : cl_bin) :
    Except Fault (Option as_val) :=
  match bin.object.type with
  | .CL_NULL => .ok none
  | .CL_INT =>
    match bin.object.u.read_i64 with
    | .error e => .error e
    | .ok i => .ok (some (.AS_INTEGER i))
  | .CL_STR =>
    match bin.object.u.read_str with
    | .error e => .error e
    | .ok s => .ok (some (.AS_STRING s))
  | .CL_LIST | .CL_MAP =>
    match bin.object.u.read_blob bin.object.sz with
    | .error e => .error e
    | .ok buf =>
      match ser.deserialize buf with
      | some v => .ok (some v)
      | none => .error .uninitialized_value
  | _ =>
    let raw_size := lib.sizeof_size_t
    match bin.object.u.read_blob bin.object.sz with
    | .error e => .error e
    | .ok payload =>
      if raw_size < bin.object.sz then .error .heap_overflow
      else
        let b := as_bytes_new lib payload
        let b := { b with type := bin.object.type }
        .ok (some (.AS_BYTES b))

/-! ## A concrete environment -/

/-- A small codec for concrete evaluation, after MessagePack: the empty list
is `90`, the one-element list of a small non-negative integer `n` is
`91 n`, the empty map is `80`; nothing else is encoded (empty buffer) or
decoded (failure). -/
def toy_msgpack : as_serializer where
  serialize := fun v =>
    match v with
    | .AS_LIST [] => [0x90]
    | .AS_LIST [.AS_INTEGER (.ofNat n)] => if n < 128 then [0x91, n] else []
    | .AS_MAP [] => [0x80]
    | _ => []
  deserialize := fun buf =>
    match buf with
    | [0x90] => some (.AS_LIST [])
    | [0x91, n] => if n < 128 then some (.AS_LIST [.AS_INTEGER (.ofNat n)]) else none
    | [0x80] => some (.AS_MAP [])
    | _ => none

/-- An LP64 platform (`sizeof(size_t)` is 8) with 16-byte record bin names,
fresh `as_bytes` of sub-type `CL_BLOB`, and the small codec. -/
def lp64 : Externals where
  AS_BIN_NAME_MAX := 16
  sizeof_size_t := 8
  bytes_new_type := .CL_BLOB
  msgpack := toy_msgpack

/-- A 32-byte `cl_bin` name field holding the C string `s`. -/
def bin_name32 (s : List Nat) : List Nat := name_field 32 s

/-- A destination bin as a caller allocates it: zeroed name, no object
written. -/
def blank_bin : cl_bin :=
  { bin_name := List.replicate 32 0, object := { type := .CL_NULL, sz := 0, u := .uninit } }

/-! ## Predicates used in the statements -/

/-- A record bin name field holds a C string within the maximum name length:
its NUL terminator lies inside the field and inside the first
`AS_BIN_NAME_MAX` bytes. -/
def bin_name_ok (lib : Externals) (name : List Nat) : Bool :=
  decide ((cstr name).length < name.length) &&
    decide ((cstr name).length < lib.AS_BIN_NAME_MAX)

/-- The record bin holds a value (not NULL) of variant `Nil`, `Integer` or
`String`. -/
def as_bin.is_scalar (rb : as_bin) : Bool :=
  match rb.value with
  | some .AS_NIL => true
  | some (.AS_INTEGER _) => true
  | some (.AS_STRING _) => true
  | _ => false

/-- What a record bin is to its users: its name as a C string, and its
value. -/
def as_bin.entry (rb : as_bin) : List Nat × Option as_val := (cstr rb.name, rb.value)

/-- The blob sub-type code under which a composite value is stored: `List`
for a list, `Map` for a map. -/
def as_val.composite_subtype : as_val → Option cl_type
  | .AS_LIST _ => some .CL_LIST
  | .AS_MAP _ => some .CL_MAP
  | _ => none

/-- The value is one `as_record_tobins` stores as a pointer+length blob:
a list, a map or bytes. -/
def as_val.is_blob_backed : as_val → Bool
  | .AS_LIST _ => true
  | .AS_MAP _ => true
  | .AS_BYTES _ => true
  | _ => false

/-- The value is of a variant `as_record_tobins` writes an object for. -/
def as_val.is_convertible : as_val → Bool
  | .AS_OTHER _ => false
  | _ => true

/-- The tag is a blob sub-type: none of `Null`, `Int`, `Str`. -/
def cl_type.is_blob_subtype (t : cl_type) : Bool :=
  decide (t ≠ .CL_NULL) && decide (t ≠ .CL_INT) && decide (t ≠ .CL_STR)

/-- The tag is one the conversions from bins treat as raw bytes: none of
`Null`, `Int`, `Str`, `List`, `Map`. -/
def cl_type.is_raw_blob (t : cl_type) : Bool :=
  decide (t ≠ .CL_NULL) && decide (t ≠ .CL_INT) && decide (t ≠ .CL_STR) &&
    decide (t ≠ .CL_LIST) && decide (t ≠ .CL_MAP)

/-- The object `o` written for the source value `v` has a tag that matches
its payload: tagged `Int` only with the integer payload of an `Integer`
source, tagged `Str` only with the string payload of a `String` source,
tagged `Null` only for a `Nil` source and without payload, and a
pointer+length blob (written for a list, a map or bytes) only under a blob
sub-type tag. -/
def tag_matches_source (v : as_val) (o : cl_object) : Prop :=
  (o.type = .CL_INT → ∃ n, v = .AS_INTEGER n ∧ o.u = .i64 n) ∧
  (o.type = .CL_STR → ∃ s, v = .AS_STRING s ∧ o.u = .str s) ∧
  (o.type = .CL_NULL → v = .AS_NIL ∧ o.sz = 0) ∧
  (v.is_blob_backed = true →
    o.type.is_blob_subtype = true ∧ ∃ p, o.u = .blob p ∧ o.sz = p.length)

/-! ## Concrete inputs -/

/-- A record of three bins `a`, `b`, `c` holding `Integer 5`, `String "hi"`
and `Nil`. -/
def rec_abc : as_record :=
  { capacity := 3,
    data := [
      { name := name_field 16 [97], value := some (.AS_INTEGER 5) },
      { name := name_field 16 [98], value := some (.AS_STRING [104, 105]) },
      { name := name_field 16 [99], value := some .AS_NIL }] }

/-- A wire bin named `name` holding the integer `i`. -/
def int_bin (name : List Nat) (i : Int) : cl_bin :=
  { bin_name := bin_name32 name, object := { type := .CL_INT, sz := 8, u := .i64 i } }

/-- Five wire bins `a` .. `e` holding the integers 1 .. 5. -/
def bins_abcde : List cl_bin :=
  [int_bin [97] 1, int_bin [98] 2, int_bin [99] 3, int_bin [100] 4, int_bin [101] 5]

/-- The first three bins of `bins_abcde`, followed by two other bins. -/
def bins_abcxy : List cl_bin :=
  [int_bin [97] 1, int_bin [98] 2, int_bin [99] 3, int_bin [120] 8, int_bin [121] 9]

/-- A record with the single bin `a` holding `v`. -/
def rec_single (v : as_val) : as_record :=
  { capacity := 1, data := [{ name := name_field 16 [97], value := some v }] }

/-- A wire bin named `a` with tag `t` and the `sz`-byte blob payload `p`. -/
def blob_bin (t : cl_type) (p : List Nat) : cl_bin :=
  { bin_name := bin_name32 [97], object := { type := t, sz := p.length, u := .blob p } }

/-- A record with the single bin whose name field holds 20 non-NUL bytes,
more than the 16 of `lp64`, and the value `Integer 1`. -/
def rec_long_name : as_record :=
  { capacity := 1, data := [{ name := List.replicate 20 65, value := some (.AS_INTEGER 1) }] }

/-- A destination bin whose 32-byte name field holds the byte 66 throughout. -/
def used_bin : cl_bin :=
  { bin_name := List.replicate 32 66, object := { type := .CL_INT, sz := 8, u := .i64 8 } }

/-- A record of two bins: `a` holds a value of a variant the shim has no case
for, `b` holds `Integer 7`. -/
def rec_other_int : as_record :=
  { capacity := 2,
    data := [
      { name := name_field 16 [97], value := some (.AS_OTHER 2) },
      { name := name_field 16 [98], value := some (.AS_INTEGER 7) }] }

/-! # Theorems -/

/-! ## Policy translation -/

/-- C1: for a present write policy and a present target,
`as_policy_write_towp` produces a structure whose `use_generation` flag is set
exactly for mode EQ, `use_generation_gt` exactly for GT, `use_generation_dup`
exactly for DUP, and whose generation number is the policy's in each of these
three modes. -/
theorem C1_write_towp_generation_flags (policy : as_policy_write)
    (wp : cl_write_parameters) :
    ∃ wp1, as_policy_write_towp (some policy) (some wp) = some wp1 ∧
      (wp1.use_generation = true ↔ policy.gen = .AS_POLICY_GEN_EQ) ∧
      (wp1.use_generation_gt = true ↔ policy.gen = .AS_POLICY_GEN_GT) ∧
      (wp1.use_generation_dup = true ↔ policy.gen = .AS_POLICY_GEN_DUP) ∧
      ((policy.gen = .AS_POLICY_GEN_EQ ∨ policy.gen = .AS_POLICY_GEN_GT ∨
          policy.gen = .AS_POLICY_GEN_DUP) → wp1.generation = policy.generation) := by
  obtain ⟨u, g, n, t, rp⟩ := policy
  cases g <;> cases rp <;> simp [as_policy_write_towp]

/-! ## The loop of `as_record_frombins` -/

theorem frombins_loop_take (lib : Externals) (bins : List cl_bin) (k : Nat) :
    ∀ (i : Nat) (r : as_record),
      as_record_frombins_loop lib (bins.take (i + k)) k i r =
        as_record_frombins_loop lib bins k i r := by
  induction k with
  | zero => intro i r; rfl
  | succ k ih =>
    intro i r
    have hi : (bins.take (i + (k + 1)))[i]? = bins[i]? := by
      rw [List.getElem?_take]; simp
    have ht : i + (k + 1) = (i + 1) + k := by omega
    simp only [as_record_frombins_loop, hi]
    simp only [ht, ih]

theorem frombins_loop_fold (lib : Externals) (bins : List cl_bin) (k : Nat) :
    ∀ (i : Nat) (r : as_record), i ≤ bins.length →
      as_record_frombins_loop lib bins k i r =
        (((bins.drop i).take k).foldlM (as_record_frombins_step lib) r >>= fun r1 =>
          if i + k ≤ bins.length then Except.ok r1
          else Except.error (Fault.bin_out_of_range bins.length)) := by
  induction k with
  | zero => intro i r hi; simp [as_record_frombins_loop, hi, bind, Except.bind, pure, Except.pure]
  | succ k ih =>
    intro i r hi
    rcases Nat.lt_or_ge i bins.length with hlt | hge
    · have hd : bins.drop i = bins[i] :: bins.drop (i + 1) := List.drop_eq_getElem_cons hlt
      have hg : bins[i]? = some bins[i] := List.getElem?_eq_getElem hlt
      simp only [as_record_frombins_loop, hg, hd, List.take_succ_cons, List.foldlM_cons]
      cases hs : as_record_frombins_step lib r bins[i] with
      | error e => simp [bind, Except.bind]
      | ok r1 =>
        have := ih (i + 1) r1 hlt
        simp only [bind, Except.bind] at this ⊢
        rw [this]
        have ht : i + (k + 1) = (i + 1) + k := by omega
        rw [ht]
    · have hieq : i = bins.length := Nat.le_antisymm hi hge
      subst hieq
      simp [as_record_frombins_loop, bind, Except.bind, pure, Except.pure]

theorem as_record_frombins_take (lib : Externals) (r : as_record) (bins bins2 : List cl_bin)
    (nbins : Nat)
    (h : bins2.take (min nbins r.capacity) = bins.take (min nbins r.capacity)) :
    as_record_frombins lib r bins2 nbins = as_record_frombins lib r bins nbins := by
  have hn : (if nbins < r.capacity then nbins else r.capacity) = min nbins r.capacity := by
    split <;> omega
  have h1 := frombins_loop_take lib bins (min nbins r.capacity) 0 r
  have h2 := frombins_loop_take lib bins2 (min nbins r.capacity) 0 r
  simp only [Nat.zero_add] at h1 h2
  simp only [as_record_frombins, hn]
  rw [← h1, ← h2, h]

theorem as_record_frombins_fold (lib : Externals) (r : as_record) (bins : List cl_bin)
    (nbins : Nat) :
    as_record_frombins lib r bins nbins =
      ((bins.take (min nbins r.capacity)).foldlM (as_record_frombins_step lib) r >>= fun r1 =>
        if min nbins r.capacity ≤ bins.length then Except.ok r1
        else Except.error (Fault.bin_out_of_range bins.length)) := by
  have hn : (if nbins < r.capacity then nbins else r.capacity) = min nbins r.capacity := by
    split <;> omega
  have := frombins_loop_fold lib bins (min nbins r.capacity) 0 r (Nat.zero_le _)
  simpa [as_record_frombins, hn] using this

/-! ## The loop of `as_record_tobins` -/

theorem tobins_step_ok (lib : Externals) (rbin : List as_bin) (i : Nat)
    (bins bins1 : List cl_bin) (h : as_record_tobins_step lib rbin i bins = .ok bins1) :
    ∃ rb b v, rbin[i]? = some rb ∧ bins[i]? = some b ∧ rb.value = some v ∧
      bins1 = bins.set i
        { bin_name := memcpy b.bin_name rb.name lib.AS_BIN_NAME_MAX,
          object := as_record_tobins_object lib b.object v } := by
  unfold as_record_tobins_step at h
  cases hr : rbin[i]? with
  | none => simp [hr] at h
  | some rb =>
    cases hb : bins[i]? with
    | none => simp [hr, hb] at h
    | some b =>
      cases hv : rb.value with
      | none => simp [hr, hb, hv] at h
      | some v =>
        simp only [hr, hb, hv, Except.ok.injEq] at h
        exact ⟨rb, b, v, rfl, rfl, hv, h.symm⟩

theorem tobins_loop_ok (lib : Externals) (rbin : List as_bin) (k : Nat) :
    ∀ (i : Nat) (bins bins1 : List cl_bin),
      as_record_tobins_loop lib rbin k i bins = .ok bins1 →
      bins1.length = bins.length ∧
      (∀ j, j < i ∨ i + k ≤ j → bins1[j]? = bins[j]?) ∧
      (∀ j, i ≤ j → j < i + k → ∃ rb b v, rbin[j]? = some rb ∧ bins[j]? = some b ∧
        rb.value = some v ∧
        bins1[j]? = some
          { bin_name := memcpy b.bin_name rb.name lib.AS_BIN_NAME_MAX,
            object := as_record_tobins_object lib b.object v }) := by
  induction k with
  | zero =>
    intro i bins bins1 h
    simp only [as_record_tobins_loop, Except.ok.injEq] at h
    subst h
    exact ⟨rfl, fun _ _ => rfl, fun j h1 h2 => by omega⟩
  | succ k ih =>
    intro i bins bins1 h
    simp only [as_record_tobins_loop] at h
    cases hs : as_record_tobins_step lib rbin i bins with
    | error e => simp [hs] at h
    | ok bins0 =>
      simp only [hs] at h
      obtain ⟨rb, b, v, hrb, hb, hv, hset⟩ := tobins_step_ok lib rbin i bins bins0 hs
      obtain ⟨hlen, hout, hin⟩ := ih (i + 1) bins0 bins1 h
      have hi : i < bins.length := by
        rcases Nat.lt_or_ge i bins.length with hlt | hge
        · exact hlt
        · rw [List.getElem?_eq_none hge] at hb; cases hb
      refine ⟨?_, ?_, ?_⟩
      · rw [hlen, hset, List.length_set]
      · intro j hj
        rw [hout j (by omega), hset, List.getElem?_set_ne (by omega)]
      · intro j h1 h2
        rcases Nat.eq_or_lt_of_le h1 with heq | hlt
        · subst heq
          refine ⟨rb, b, v, hrb, hb, hv, ?_⟩
          rw [hout i (by omega), hset, List.getElem?_set_eq_of_lt _ hi]
        · obtain ⟨rb1, b1, v1, hrb1, hb1, hv1, hres⟩ := hin j (by omega) (by omega)
          refine ⟨rb1, b1, v1, hrb1, ?_, hv1, hres⟩
          rw [← hb1, hset, List.getElem?_set_ne (by omega)]

theorem tobins_loop_total (lib : Externals) (rbin : List as_bin) (k : Nat) :
    ∀ (i : Nat) (bins : List cl_bin), i + k ≤ rbin.length → i + k ≤ bins.length →
      (∀ rb ∈ rbin, rb.value ≠ none) →
      ∃ bins1, as_record_tobins_loop lib rbin k i bins = .ok bins1 := by
  induction k with
  | zero => intro i bins _ _ _; exact ⟨bins, rfl⟩
  | succ k ih =>
    intro i bins h1 h2 hv
    have hi1 : i < rbin.length := by omega
    have hi2 : i < bins.length := by omega
    have hne := hv rbin[i] (List.getElem_mem hi1)
    obtain ⟨v, hv1⟩ := Option.ne_none_iff_exists'.mp hne
    have hs : as_record_tobins_step lib rbin i bins = .ok (bins.set i
        { bin_name := memcpy bins[i].bin_name rbin[i].name lib.AS_BIN_NAME_MAX,
          object := as_record_tobins_object lib bins[i].object v }) := by
      simp [as_record_tobins_step, List.getElem?_eq_getElem hi1, List.getElem?_eq_getElem hi2, hv1]
    simp only [as_record_tobins_loop, hs]
    exact ih (i + 1) _ (by omega) (by rw [List.length_set]; omega) hv

/-! ## Names as C strings -/

theorem cstr_append_zero (s t : List Nat) (hs : ∀ c ∈ s, c ≠ 0) :
    cstr (s ++ 0 :: t) = s := by
  induction s with
  | nil => simp [cstr]
  | cons c s ih =>
    have hc : c ≠ 0 := hs c (List.mem_cons_self c s)
    have ih1 := ih (fun d hd => hs d (List.mem_cons_of_mem c hd))
    simp only [cstr] at ih1 ⊢
    simp [List.takeWhile_cons, hc, ih1]

theorem cstr_no_zero (l : List Nat) : ∀ c ∈ cstr l, c ≠ 0 := by
  intro c hc
  have := List.mem_takeWhile_imp hc
  simpa using this

theorem cstr_split (l : List Nat) (h : (cstr l).length < l.length) :
    ∃ t, l = cstr l ++ 0 :: t := by
  induction l with
  | nil => simp at h
  | cons c l ih =>
    by_cases hc : c = 0
    · subst hc
      exact ⟨l, by simp [cstr]⟩
    · have hcs : cstr (c :: l) = c :: cstr l := by simp [cstr, List.takeWhile_cons, hc]
      rw [hcs] at h ⊢
      obtain ⟨t, ht⟩ := ih (by simpa using h)
      exact ⟨t, by rw [List.cons_append, ← ht]⟩

theorem cstr_memcpy (dst src : List Nat) (n : Nat) (h1 : (cstr src).length < src.length)
    (h2 : (cstr src).length < n) : cstr (memcpy dst src n) = cstr src := by
  obtain ⟨t, ht⟩ := cstr_split src h1
  have hs := cstr_no_zero src
  generalize cstr src = s at ht hs h2 ⊢
  subst ht
  have hn : n - s.length = (n - s.length - 1) + 1 := by omega
  have : memcpy dst (s ++ 0 :: t) n = s ++ 0 :: (t.take (n - s.length - 1) ++ dst.drop n) := by
    unfold memcpy
    rw [List.take_append_eq_append_take, List.take_of_length_le (by omega), hn, List.take_succ_cons]
    simp
  rw [this]
  exact cstr_append_zero s _ hs

theorem cstr_of_no_zero (s : List Nat) (hs : ∀ c ∈ s, c ≠ 0) : cstr s = s := by
  unfold cstr
  rw [List.takeWhile_eq_self_iff]
  intro c hc
  simpa using hs c hc

theorem cstr_name_field (n : Nat) (name : List Nat) (h : (cstr name).length ≤ n) :
    cstr (name_field n name) = cstr name := by
  unfold name_field
  rw [List.take_of_length_le h]
  rcases Nat.eq_or_lt_of_le h with heq | hlt
  · rw [heq, Nat.sub_self, List.replicate_zero, List.append_nil]
    exact cstr_of_no_zero _ (cstr_no_zero name)
  · have hn : n - (cstr name).length = (n - (cstr name).length - 1) + 1 := by omega
    rw [hn, List.replicate_succ]
    exact cstr_append_zero _ _ (cstr_no_zero name)

/-! ## The record setters -/

theorem as_bins_replace_none (name : List Nat) (value : Option as_val) (l : List as_bin)
    (h : ∀ b ∈ l, cstr b.name ≠ cstr name) : as_bins_replace name value l = none := by
  induction l with
  | nil => rfl
  | cons b l ih =>
    have hb := h b (List.mem_cons_self b l)
    have ih1 := ih (fun c hc => h c (List.mem_cons_of_mem b hc))
    simp [as_bins_replace, hb, ih1]

theorem as_record_set_append (lib : Externals) (r : as_record) (name : List Nat)
    (value : Option as_val) (h : ∀ b ∈ r.data, cstr b.name ≠ cstr name)
    (hroom : r.size < r.capacity) :
    as_record_set lib r name value =
      { r with data := r.data ++
          [{ name := name_field lib.AS_BIN_NAME_MAX name, value := value }] } := by
  simp [as_record_set, as_bins_replace_none name value r.data h, hroom]

theorem as_record_get_congr (l1 : List as_bin) :
    ∀ (l2 : List as_bin), l1.map as_bin.entry = l2.map as_bin.entry →
      ∀ (cap1 cap2 : Nat) (name : List Nat),
        as_record_get ⟨cap1, l1⟩ name = as_record_get ⟨cap2, l2⟩ name := by
  induction l1 with
  | nil =>
    intro l2 h cap1 cap2 name
    cases l2 with
    | nil => rfl
    | cons b l2 => simp at h
  | cons a l1 ih =>
    intro l2 h cap1 cap2 name
    cases l2 with
    | nil => simp at h
    | cons b l2 =>
      simp only [List.map_cons, List.cons.injEq, as_bin.entry, Prod.mk.injEq] at h
      obtain ⟨⟨hn, hv⟩, ht⟩ := h
      have := ih l2 ht cap1 cap2 name
      simp only [as_record_get] at this ⊢
      by_cases hc : cstr a.name = cstr name
      · have hc2 : cstr b.name = cstr name := by rw [← hn]; exact hc
        simp [List.find?_cons, hc, hc2, hv]
      · have hc2 : ¬ cstr b.name = cstr name := by rw [← hn]; exact hc
        simp [List.find?_cons, hc, hc2, this]

theorem as_bins_replace_some_find (name : List Nat) (value : Option as_val) (l : List as_bin) :
    ∀ l1, as_bins_replace name value l = some l1 →
      (l1.find? (fun b => cstr b.name = cstr name)).map (fun b => b.value) = some value := by
  induction l with
  | nil => intro l1 h; simp [as_bins_replace] at h
  | cons b l ih =>
    intro l1 h
    by_cases hb : cstr b.name = cstr name
    · simp only [as_bins_replace, hb, if_true, Option.some.injEq] at h
      subst h
      simp [List.find?_cons, hb]
    · simp only [as_bins_replace, hb, if_false, Option.map_eq_some'] at h
      obtain ⟨l2, hl2, hl1⟩ := h
      subst hl1
      have := ih l2 hl2
      simp only [List.find?_cons, hb, decide_False]
      exact this

theorem as_bins_replace_none_find (name : List Nat) (value : Option as_val) (l : List as_bin)
    (h : as_bins_replace name value l = none) :
    ∀ b ∈ l, cstr b.name ≠ cstr name := by
  induction l with
  | nil => intro b hb; cases hb
  | cons a l ih =>
    by_cases ha : cstr a.name = cstr name
    · simp [as_bins_replace, ha] at h
    · simp only [as_bins_replace, ha, if_false, Option.map_eq_none'] at h
      intro b hb
      rcases List.mem_cons.mp hb with rfl | hbl
      · exact ha
      · exact ih h b hbl

theorem as_record_get_set (lib : Externals) (r : as_record) (name : List Nat)
    (value : Option as_val)
    (h : (as_record_get r name).isSome = true ∨
      (r.size < r.capacity ∧ (cstr name).length ≤ lib.AS_BIN_NAME_MAX)) :
    as_record_get (as_record_set lib r name value) name = some value := by
  cases hrep : as_bins_replace name value r.data with
  | some l1 =>
    simp only [as_record_set, hrep, as_record_get]
    exact as_bins_replace_some_find name value r.data l1 hrep
  | none =>
    have hno := as_bins_replace_none_find name value r.data hrep
    have hfind : r.data.find? (fun b => decide (cstr b.name = cstr name)) = none := by
      rw [List.find?_eq_none]
      intro b hb
      simpa using hno b hb
    rcases h with h | ⟨hroom, hlen⟩
    · simp [as_record_get, hfind] at h
    · simp only [as_record_set, hrep, hroom, if_true, as_record_get, List.find?_append, hfind,
        Option.none_or]
      simp [List.find?_cons, cstr_name_field _ _ hlen]

/-! ## Round trip of scalar values -/

theorem frombins_step_scalar (lib : Externals) (r : as_record) (name : List Nat)
    (o : cl_object) (rb : as_bin) (v : as_val) (hv : rb.value = some v)
    (hs : rb.is_scalar = true) :
    as_record_frombins_step lib r
        { bin_name := name, object := as_record_tobins_object lib o v } =
      .ok (as_record_set lib r name (some v)) := by
  unfold as_bin.is_scalar at hs
  rw [hv] at hs
  cases v with
  | AS_NIL => rfl
  | AS_INTEGER i => rfl
  | AS_STRING s => rfl
  | AS_LIST l => simp at hs
  | AS_MAP m => simp at hs
  | AS_BYTES b => simp at hs
  | AS_OTHER c => simp at hs

theorem frombins_fold_scalars (lib : Externals) (data : List as_bin) (bins1 : List cl_bin)
    (cap : Nat)
    (hspec : ∀ j, j < data.length → ∃ (rb : as_bin) (b : cl_bin) (v : as_val),
      data[j]? = some rb ∧ rb.value = some v ∧
      bins1[j]? = some
        { bin_name := memcpy b.bin_name rb.name lib.AS_BIN_NAME_MAX,
          object := as_record_tobins_object lib b.object v })
    (hnames : ∀ rb ∈ data, bin_name_ok lib rb.name = true)
    (hdistinct : (data.map (fun rb => cstr rb.name)).Nodup)
    (hvals : ∀ rb ∈ data, rb.is_scalar = true)
    (hcap : data.length ≤ cap) :
    ∀ j, j ≤ data.length → ∃ rj : as_record,
      (bins1.take j).foldlM (as_record_frombins_step lib) ⟨cap, []⟩ = .ok rj ∧
      rj.capacity = cap ∧ rj.data.map as_bin.entry = (data.take j).map as_bin.entry := by
  intro j
  induction j with
  | zero => intro _; exact ⟨⟨cap, []⟩, rfl, rfl, rfl⟩
  | succ j ih =>
    intro hj
    have hjlt : j < data.length := by omega
    obtain ⟨rj, hfold, hrcap, hrdata⟩ := ih (by omega)
    obtain ⟨rb, b, v, hrb, hv, hx⟩ := hspec j hjlt
    have hrbeq : rb = data[j] := by
      rw [List.getElem?_eq_getElem hjlt] at hrb
      exact (Option.some.inj hrb).symm
    have hmem : rb ∈ data := by rw [hrbeq]; exact List.getElem_mem hjlt
    have hok := hnames rb hmem
    simp only [bin_name_ok, Bool.and_eq_true, decide_eq_true_eq] at hok
    -- the name the destination bin carries is the record bin's name
    have hname : cstr (memcpy b.bin_name rb.name lib.AS_BIN_NAME_MAX) = cstr rb.name :=
      cstr_memcpy _ _ _ hok.1 hok.2
    -- no bin set so far has that name
    have hsplit : data = data.take j ++ rb :: data.drop (j + 1) := by
      rw [hrbeq, ← List.drop_eq_getElem_cons hjlt, List.take_append_drop]
    have hfresh : ∀ c ∈ rj.data,
        cstr c.name ≠ cstr (memcpy b.bin_name rb.name lib.AS_BIN_NAME_MAX) := by
      intro c hc heq
      rw [hname] at heq
      have h1 : c.entry ∈ (data.take j).map as_bin.entry := by
        rw [← hrdata]; exact List.mem_map_of_mem _ hc
      obtain ⟨d, hd, hde⟩ := List.mem_map.mp h1
      have hkey : cstr d.name = cstr rb.name := by
        have := congrArg Prod.fst hde
        simp only [as_bin.entry] at this
        rw [this, heq]
      rw [hsplit, List.map_append, List.map_cons] at hdistinct
      have h2 := (List.nodup_cons.mp (List.nodup_middle.mp hdistinct)).1
      apply h2
      apply List.mem_append_left
      rw [← hkey]
      exact List.mem_map_of_mem (fun rb => cstr rb.name) hd
    have hlen : rj.data.length = j := by
      have := congrArg List.length hrdata
      simpa [List.length_take, Nat.min_eq_left (Nat.le_of_lt hjlt)] using this
    have hroom : rj.size < rj.capacity := by
      unfold as_record.size; rw [hlen, hrcap]; omega
    refine ⟨as_record_set lib rj (memcpy b.bin_name rb.name lib.AS_BIN_NAME_MAX) (some v),
      ?_, ?_, ?_⟩
    · rw [List.take_succ, hx, Option.toList_some, List.foldlM_append, hfold]
      simp only [bind, Except.bind, List.foldlM_cons, List.foldlM_nil]
      rw [frombins_step_scalar lib rj _ b.object rb v hv (hvals rb hmem)]
      rfl
    · rw [as_record_set_append lib rj _ _ hfresh hroom]; exact hrcap
    · rw [as_record_set_append lib rj _ _ hfresh hroom]
      have htake : data.take (j + 1) = data.take j ++ [rb] := by
        rw [List.take_succ, hrb, Option.toList_some]
      rw [htake, List.map_append, List.map_append, hrdata]
      simp only [List.map_cons, List.map_nil, as_bin.entry]
      rw [cstr_name_field _ _ (by rw [hname]; exact Nat.le_of_lt hok.2), hname, hv]

/-- C7: a record whose bins have pairwise distinct names (C strings within
the maximum name length) and values of variant `Nil`, `Integer` or `String`
only, converted by `as_record_tobins` with `nbins` its bin count and fed back
through `as_record_frombins` into an empty record of capacity at least that
count, gives a record with the same bins: same names and same values in the
same order, so that looking up any name gives the original's value. -/
theorem C7_roundtrip_scalars (lib : Externals) (r : as_record) (bins : List cl_bin)
    (cap : Nat)
    (hnames : ∀ rb ∈ r.data, bin_name_ok lib rb.name = true)
    (hdistinct : (r.data.map (fun rb => cstr rb.name)).Nodup)
    (hvals : ∀ rb ∈ r.data, rb.is_scalar = true)
    (hbins : r.size ≤ bins.length) (hcap : r.size ≤ cap) :
    ∃ bins1 r1, as_record_tobins lib r bins r.size = .ok bins1 ∧
      as_record_frombins lib ⟨cap, []⟩ bins1 r.size = .ok r1 ∧
      r1.data.map as_bin.entry = r.data.map as_bin.entry ∧
      ∀ name, as_record_get r1 name = as_record_get r name := by
  unfold as_record.size at hbins hcap
  have hnonnull : ∀ rb ∈ r.data, rb.value ≠ none := by
    intro rb hrb hnone
    have := hvals rb hrb
    simp [as_bin.is_scalar, hnone] at this
  obtain ⟨bins1, htobins⟩ := tobins_loop_total lib r.data r.data.length 0 bins
    (by omega) (by omega) hnonnull
  obtain ⟨hlen, _, hin⟩ := tobins_loop_ok lib r.data r.data.length 0 bins bins1 htobins
  have hspec : ∀ j, j < r.data.length → ∃ (rb : as_bin) (b : cl_bin) (v : as_val),
      r.data[j]? = some rb ∧ rb.value = some v ∧
      bins1[j]? = some
        { bin_name := memcpy b.bin_name rb.name lib.AS_BIN_NAME_MAX,
          object := as_record_tobins_object lib b.object v } := by
    intro j hj
    obtain ⟨rb, b, v, h1, _, h3, h4⟩ := hin j (Nat.zero_le j) (by omega)
    exact ⟨rb, b, v, h1, h3, h4⟩
  obtain ⟨r1, hfold, _, hdata⟩ := frombins_fold_scalars lib r.data bins1 cap hspec hnames
    hdistinct hvals hcap r.data.length (Nat.le_refl _)
  rw [List.take_length] at hdata
  refine ⟨bins1, r1, htobins, ?_, hdata, ?_⟩
  · have hmin : min r.data.length cap = r.data.length := Nat.min_eq_left hcap
    have h := as_record_frombins_fold lib ⟨cap, []⟩ bins1 r.data.length
    simp only [hmin] at h
    rw [as_record.size, h, hfold]
    simp [bind, Except.bind, hlen, hbins]
  · intro name
    exact as_record_get_congr r1.data r.data hdata r1.capacity r.capacity name

/-! ## Bounds of `as_record_tobins` and the raw-bytes case of the conversions from bins -/

theorem as_record_tobins_past_bin_count (lib : Externals) (r : as_record)
    (bins : List cl_bin) (nbins : Nat) (h : r.size < nbins) :
    ∃ e, as_record_tobins lib r bins nbins = .error e := by
  cases hrun : as_record_tobins lib r bins nbins with
  | error e => exact ⟨e, rfl⟩
  | ok bins1 =>
    obtain ⟨_, _, hin⟩ := tobins_loop_ok lib r.data nbins 0 bins bins1 hrun
    obtain ⟨rb, _, _, hrb, _⟩ := hin r.data.length (Nat.zero_le _) (by simpa using h)
    rw [List.getElem?_eq_none (Nat.le_refl _)] at hrb
    cases hrb

theorem as_val_frombin_raw_small (lib : Externals) (ser : as_serializer) (bin : cl_bin)
    (payload : List Nat) (htag : bin.object.type.is_raw_blob = true)
    (hread : bin.object.u.read_blob bin.object.sz = .ok payload)
    (hsmall : bin.object.sz ≤ lib.sizeof_size_t) :
    as_val_frombin lib ser bin =
      .ok (some (.AS_BYTES { value := payload, type := bin.object.type })) := by
  have hnot : ¬ lib.sizeof_size_t < bin.object.sz := by omega
  unfold as_val_frombin
  cases ht : bin.object.type <;>
    simp [cl_type.is_raw_blob, ht] at htag <;>
    simp [hread, hnot, as_bytes_new]

theorem as_val_frombin_raw_large (lib : Externals) (ser : as_serializer) (bin : cl_bin)
    (payload : List Nat) (htag : bin.object.type.is_raw_blob = true)
    (hread : bin.object.u.read_blob bin.object.sz = .ok payload)
    (hlarge : lib.sizeof_size_t < bin.object.sz) :
    as_val_frombin lib ser bin = .error .heap_overflow := by
  unfold as_val_frombin
  cases ht : bin.object.type <;>
    simp [cl_type.is_raw_blob, ht] at htag <;>
    simp [hread, hlarge]

theorem as_record_frombins_step_raw (lib : Externals) (r : as_record) (bin : cl_bin)
    (payload : List Nat) (htag : bin.object.type.is_raw_blob = true)
    (hread : bin.object.u.read_blob bin.object.sz = .ok payload) :
    as_record_frombins_step lib r bin =
      .ok (as_record_set_bytes lib r bin.bin_name
        { value := payload, type := lib.bytes_new_type }) := by
  unfold as_record_frombins_step
  cases ht : bin.object.type <;>
    simp [cl_type.is_raw_blob, ht] at htag <;>
    simp [hread, as_bytes_empty_new, as_bytes_append]

/-! ## The claims on the bin converter -/

/-- C2: `as_record_frombins` processes exactly the first
`min nbins capacity` bins: arrays that agree on these indices give the same
result whatever they hold above, and the result is the per-bin step folded
from left to right over exactly these bins (followed by an out-of-range read
when the array is shorter than that). -/
theorem C2_frombins_effective_count (lib : Externals) (r : as_record)
    (bins : List cl_bin) (nbins : Nat) :
    (∀ bins2 : List cl_bin,
        bins2.take (min nbins r.capacity) = bins.take (min nbins r.capacity) →
        as_record_frombins lib r bins2 nbins = as_record_frombins lib r bins nbins) ∧
    as_record_frombins lib r bins nbins =
      ((bins.take (min nbins r.capacity)).foldlM (as_record_frombins_step lib) r >>= fun r1 =>
        if min nbins r.capacity ≤ bins.length then Except.ok r1
        else Except.error (Fault.bin_out_of_range bins.length)) := by
  exact ⟨fun bins2 h => as_record_frombins_take lib r bins bins2 nbins h,
    as_record_frombins_fold lib r bins nbins⟩

/-- Witness of C2: five source bins and a record of capacity 3. The bins
`a`, `b`, `c` are consumed and set, and replacing the two bins above them
does not change the result. -/
theorem C2_frombins_effective_count_witness :
    bins_abcxy.take (min 5 3) = bins_abcde.take (min 5 3) ∧
    as_record_frombins lp64 ⟨3, []⟩ bins_abcxy 5 = as_record_frombins lp64 ⟨3, []⟩ bins_abcde 5 ∧
    as_record_frombins lp64 ⟨3, []⟩ bins_abcde 5 = .ok
      { capacity := 3,
        data := [
          { name := name_field 16 [97], value := some (.AS_INTEGER 1) },
          { name := name_field 16 [98], value := some (.AS_INTEGER 2) },
          { name := name_field 16 [99], value := some (.AS_INTEGER 3) }] } :=
  ⟨by decide,
    (C2_frombins_effective_count lp64 ⟨3, []⟩ bins_abcde 5).1 bins_abcxy (by decide),
    by rfl⟩

/-- C3 (the code at a failing input): on a record with one bin and
`nbins = 2`, `as_record_tobins` goes on to read `rbin[1]`, past the record's
bin count, where the claim has it stop after `min 1 2 = 1` bins. -/
theorem C3_tobins_reads_past_bin_count :
    (rec_single (.AS_INTEGER 1)).size = 1 ∧
    as_record_tobins lp64 (rec_single (.AS_INTEGER 1)) [blank_bin, blank_bin] 2 =
      .error (.record_bin_out_of_range 1) :=
  ⟨by rfl, by rfl⟩

/-- C4 (the code at a failing input): for a `CL_BLOB` bin with a 9-byte
payload, `as_val_frombin` copies the 9 bytes into a heap block of
`sizeof(size_t)` = 8 bytes. -/
theorem C4_val_frombin_overflows_heap_block :
    as_val_frombin lp64 toy_msgpack (blob_bin .CL_BLOB [1, 2, 3, 4, 5, 6, 7, 8, 9]) =
      .error .heap_overflow := by
  rfl

/-- C5 (the code at a failing input): whatever sub-type code a fresh
`as_bytes` carries, `as_record_frombins` stores that code for a bin tagged
`CL_JAVA_BLOB` and for a bin tagged `CL_CSHARP_BLOB` alike; the bin's own tag
is not stored. -/
theorem C5_frombins_bytes_subtype_not_tag (lib : Externals) :
    as_record_frombins lib ⟨1, []⟩ [blob_bin .CL_JAVA_BLOB [1, 2, 3]] 1 = .ok
      { capacity := 1,
        data := [{ name := name_field lib.AS_BIN_NAME_MAX (bin_name32 [97]),
                   value := some (.AS_BYTES ⟨[1, 2, 3], lib.bytes_new_type⟩) }] } ∧
    as_record_frombins lib ⟨1, []⟩ [blob_bin .CL_CSHARP_BLOB [1, 2, 3]] 1 = .ok
      { capacity := 1,
        data := [{ name := name_field lib.AS_BIN_NAME_MAX (bin_name32 [97]),
                   value := some (.AS_BYTES ⟨[1, 2, 3], lib.bytes_new_type⟩) }] } :=
  ⟨by rfl, by rfl⟩

/-- C6 (counterexample): the payload `c1` of a `CL_LIST` bin does not decode,
and `as_record_frombins` returns the record as after any other bin, its bin
`a` set with no value. -/
theorem C6_decode_failure_not_reported :
    lp64.msgpack.deserialize [0xc1] = none ∧
    as_record_frombins lp64 ⟨1, []⟩ [blob_bin .CL_LIST [0xc1]] 1 = .ok
      { capacity := 1,
        data := [{ name := name_field 16 (bin_name32 [97]), value := none }] } :=
  ⟨by rfl, by rfl⟩

/-- C6 (amended): for a bin tagged `List` or `Map` whose payload the codec
fails to decode, `as_record_frombins` reports no error: the bin's step passes
the NULL value to `as_record_set` under the bin's name, and the call on that
bin returns the record so set. -/
theorem C6_frombins_decode_failure_sets_null (lib : Externals) (r : as_record) (bin : cl_bin)
    (payload : List Nat)
    (htag : bin.object.type = .CL_LIST ∨ bin.object.type = .CL_MAP)
    (hread : bin.object.u.read_blob bin.object.sz = .ok payload)
    (hfail : lib.msgpack.deserialize payload = none)
    (hcap : 0 < r.capacity) :
    as_record_frombins_step lib r bin = .ok (as_record_set lib r bin.bin_name none) ∧
    as_record_frombins lib r [bin] 1 = .ok (as_record_set lib r bin.bin_name none) := by
  have hstep : as_record_frombins_step lib r bin =
      .ok (as_record_set lib r bin.bin_name none) := by
    unfold as_record_frombins_step
    rcases htag with h | h <;> simp [h, hread, hfail]
  refine ⟨hstep, ?_⟩
  have hn : (if 1 < r.capacity then 1 else r.capacity) = 1 := by split <;> omega
  simp [as_record_frombins, hn, as_record_frombins_loop, hstep]

/-- Witness of C6 (amended): the `CL_LIST` bin with payload `c1`. -/
theorem C6_frombins_decode_failure_sets_null_witness :
    ((blob_bin .CL_LIST [0xc1]).object.type = .CL_LIST ∨
      (blob_bin .CL_LIST [0xc1]).object.type = .CL_MAP) ∧
    (blob_bin .CL_LIST [0xc1]).object.u.read_blob (blob_bin .CL_LIST [0xc1]).object.sz =
      .ok [0xc1] ∧
    lp64.msgpack.deserialize [0xc1] = none ∧
    as_record_frombins_step lp64 ⟨1, []⟩ (blob_bin .CL_LIST [0xc1]) =
      .ok (as_record_set lp64 ⟨1, []⟩ (blob_bin .CL_LIST [0xc1]).bin_name none) ∧
    as_record_frombins lp64 ⟨1, []⟩ [blob_bin .CL_LIST [0xc1]] 1 =
      .ok (as_record_set lp64 ⟨1, []⟩ (blob_bin .CL_LIST [0xc1]).bin_name none) :=
  ⟨Or.inl rfl, rfl, rfl,
    C6_frombins_decode_failure_sets_null lp64 ⟨1, []⟩ (blob_bin .CL_LIST [0xc1]) [0xc1]
      (Or.inl rfl) rfl rfl (by decide)⟩

theorem tobins_object_composite (lib : Externals) (o : cl_object) (v : as_val) (t : cl_type)
    (hv : v.composite_subtype = some t) :
    as_record_tobins_object lib o v =
      { type := t, sz := (lib.msgpack.serialize v).length,
        u := .blob (lib.msgpack.serialize v) } := by
  cases v <;> simp [as_val.composite_subtype] at hv <;> subst hv <;> rfl

theorem val_frombin_composite (lib : Externals) (ser : as_serializer) (name : List Nat)
    (v : as_val) (t : cl_type) (buf : List Nat)
    (ht : t = .CL_LIST ∨ t = .CL_MAP) (hcodec : ser.deserialize buf = some v) :
    as_val_frombin lib ser
        { bin_name := name, object := { type := t, sz := buf.length, u := .blob buf } } =
      .ok (some v) := by
  unfold as_val_frombin
  rcases ht with h | h <;> simp [h, cl_union.read_blob, hcodec]

/-- Witness of C7: the record `a = 5, b = "hi", c = Nil`, three destination
bins and an empty record of capacity 3. -/
theorem C7_roundtrip_scalars_witness :
    (∀ rb ∈ rec_abc.data, bin_name_ok lp64 rb.name = true) ∧
    (rec_abc.data.map (fun rb => cstr rb.name)).Nodup ∧
    (∀ rb ∈ rec_abc.data, rb.is_scalar = true) ∧
    ∃ bins1 r1,
      as_record_tobins lp64 rec_abc [blank_bin, blank_bin, blank_bin] rec_abc.size = .ok bins1 ∧
      as_record_frombins lp64 ⟨3, []⟩ bins1 rec_abc.size = .ok r1 ∧
      r1.data.map as_bin.entry = rec_abc.data.map as_bin.entry ∧
      ∀ name, as_record_get r1 name = as_record_get rec_abc name :=
  ⟨by decide, by decide, by decide,
    C7_roundtrip_scalars lp64 rec_abc [blank_bin, blank_bin, blank_bin] 3
      (by decide) (by decide) (by decide) (by decide) (by decide)⟩

/-- C8: on a record within bounds (`nbins` at most the bin count and the
array length, no NULL value) `as_record_tobins` returns, and whenever it
returns, the bin written at an index below `nbins` for a `List` (`Map`) value
`v` has tag `List` (`Map`), payload `serialize v` and its length as size;
if the codec decodes `serialize v` to `v`, `as_val_frombin` on that bin
returns `v`. -/
theorem C8_composite_roundtrip (lib : Externals) (r : as_record) (bins : List cl_bin)
    (nbins : Nat) :
    (nbins ≤ r.size → nbins ≤ bins.length → (∀ rb ∈ r.data, rb.value ≠ none) →
      ∃ bins1, as_record_tobins lib r bins nbins = .ok bins1) ∧
    ∀ bins1, as_record_tobins lib r bins nbins = .ok bins1 →
      ∀ (i : Nat) (rb : as_bin) (v : as_val) (t : cl_type), i < nbins →
        r.data[i]? = some rb → rb.value = some v → v.composite_subtype = some t →
        ∃ b1, bins1[i]? = some b1 ∧ b1.object.type = t ∧
          b1.object.u = .blob (lib.msgpack.serialize v) ∧
          b1.object.sz = (lib.msgpack.serialize v).length ∧
          (lib.msgpack.deserialize (lib.msgpack.serialize v) = some v →
            as_val_frombin lib lib.msgpack b1 = .ok (some v)) := by
  refine ⟨?_, ?_⟩
  · intro h1 h2 h3
    exact tobins_loop_total lib r.data nbins 0 bins (by simpa using h1) (by simpa using h2) h3
  · intro bins1 hrun i rb v t hi hrb hv ht
    obtain ⟨_, _, hin⟩ := tobins_loop_ok lib r.data nbins 0 bins bins1 hrun
    obtain ⟨rb1, b, v1, hrb1, _, hv1, hres⟩ := hin i (Nat.zero_le i) (by omega)
    rw [hrb] at hrb1
    cases Option.some.inj hrb1
    rw [hv] at hv1
    cases Option.some.inj hv1
    rw [tobins_object_composite lib b.object v t ht] at hres
    refine ⟨_, hres, rfl, rfl, rfl, ?_⟩
    intro hcodec
    have htag : t = .CL_LIST ∨ t = .CL_MAP := by
      cases v <;> simp [as_val.composite_subtype] at ht
      · exact Or.inl ht.symm
      · exact Or.inr ht.symm
    exact val_frombin_composite lib lib.msgpack _ v t _ htag hcodec

/-- Witness of C8: the list `[7]` in bin `a`. -/
theorem C8_composite_roundtrip_witness :
    ∃ bins1 b1,
      as_record_tobins lp64 (rec_single (.AS_LIST [.AS_INTEGER 7])) [blank_bin] 1 = .ok bins1 ∧
      bins1[0]? = some b1 ∧ b1.object.type = .CL_LIST ∧ b1.object.u = .blob [0x91, 7] ∧
      b1.object.sz = 2 ∧
      as_val_frombin lp64 lp64.msgpack b1 = .ok (some (.AS_LIST [.AS_INTEGER 7])) := by
  have h := C8_composite_roundtrip lp64 (rec_single (.AS_LIST [.AS_INTEGER 7])) [blank_bin] 1
  obtain ⟨bins1, hrun⟩ := h.1 (by decide) (by decide) (by simp [rec_single])
  obtain ⟨b1, h1, h2, h3, h4, h5⟩ :=
    h.2 bins1 hrun 0 _ (.AS_LIST [.AS_INTEGER 7]) .CL_LIST (by decide) rfl rfl rfl
  exact ⟨bins1, b1, hrun, h1, h2, h3, h4, h5 rfl⟩

/-- C9: for a bin tagged `Null`, `as_val_frombin` returns no value (NULL,
not a `Nil` value), while `as_record_frombins` on that bin, for a record of
capacity at least 1, calls `as_record_set_nil` under the bin's name; when the
record has a bin of that name or room for one, the bin of that name then
holds the value `Nil`. -/
theorem C9_null_bin_absent_vs_nil (lib : Externals) (ser : as_serializer) (r : as_record)
    (bin : cl_bin) (hnull : bin.object.type = .CL_NULL) (hcap : 0 < r.capacity) :
    as_val_frombin lib ser bin = .ok none ∧
    as_record_frombins lib r [bin] 1 = .ok (as_record_set_nil lib r bin.bin_name) ∧
    (((as_record_get r bin.bin_name).isSome = true ∨
        (r.size < r.capacity ∧ (cstr bin.bin_name).length ≤ lib.AS_BIN_NAME_MAX)) →
      ∃ r1, as_record_frombins lib r [bin] 1 = .ok r1 ∧
        as_record_get r1 bin.bin_name = some (some .AS_NIL)) := by
  have hstep : as_record_frombins_step lib r bin =
      .ok (as_record_set_nil lib r bin.bin_name) := by
    unfold as_record_frombins_step
    simp [hnull]
  have hn : (if 1 < r.capacity then 1 else r.capacity) = 1 := by split <;> omega
  have hrun : as_record_frombins lib r [bin] 1 = .ok (as_record_set_nil lib r bin.bin_name) := by
    simp [as_record_frombins, hn, as_record_frombins_loop, hstep]
  refine ⟨?_, hrun, ?_⟩
  · unfold as_val_frombin
    simp [hnull]
  · intro h
    exact ⟨_, hrun, as_record_get_set lib r bin.bin_name (some .AS_NIL) h⟩

/-- Witness of C9: a `Null` bin named `a` and an empty record of capacity
1. -/
theorem C9_null_bin_absent_vs_nil_witness :
    blank_bin.object.type = .CL_NULL ∧ 0 < (as_record.mk 1 []).capacity ∧
    as_val_frombin lp64 toy_msgpack { blank_bin with bin_name := bin_name32 [97] } = .ok none ∧
    ∃ r1, as_record_frombins lp64 ⟨1, []⟩ [{ blank_bin with bin_name := bin_name32 [97] }] 1 =
        .ok r1 ∧
      as_record_get r1 (bin_name32 [97]) = some (some .AS_NIL) := by
  have h := C9_null_bin_absent_vs_nil lp64 toy_msgpack ⟨1, []⟩
    { blank_bin with bin_name := bin_name32 [97] } rfl (by decide)
  exact ⟨rfl, by decide, h.1, h.2.2 (Or.inr ⟨by decide, by decide⟩)⟩

theorem tobins_object_tag_matches (lib : Externals) (o : cl_object) (v : as_val)
    (hconv : v.is_convertible = true)
    (hbytes : ∀ b, v = .AS_BYTES b → b.type.is_blob_subtype = true) :
    tag_matches_source v (as_record_tobins_object lib o v) := by
  cases v with
  | AS_NIL =>
    simp [tag_matches_source, as_record_tobins_object, citrusleaf_object_init_null,
      as_val.is_blob_backed]
  | AS_INTEGER i =>
    simp [tag_matches_source, as_record_tobins_object, citrusleaf_object_init_int,
      as_val.is_blob_backed]
  | AS_STRING s =>
    simp [tag_matches_source, as_record_tobins_object, citrusleaf_object_init_str,
      as_val.is_blob_backed]
  | AS_LIST l =>
    simp [tag_matches_source, as_record_tobins_object, citrusleaf_object_init_blob2,
      cl_type.is_blob_subtype]
  | AS_MAP m =>
    simp [tag_matches_source, as_record_tobins_object, citrusleaf_object_init_blob2,
      cl_type.is_blob_subtype]
  | AS_BYTES b =>
    have hb := hbytes b rfl
    have hb1 := hb
    simp only [cl_type.is_blob_subtype, Bool.and_eq_true, decide_eq_true_eq] at hb1
    simp [tag_matches_source, as_record_tobins_object, citrusleaf_object_init_blob2, hb, hb1]
  | AS_OTHER c => simp [as_val.is_convertible] at hconv

/-- C10 (counterexample): for a `Bytes` value of sub-type code `CL_INT` the
bin written by `as_record_tobins` is tagged `Int` and carries the
pointer+length payload of the bytes. -/
theorem C10_bytes_written_under_int_tag :
    as_record_tobins lp64 (rec_single (.AS_BYTES ⟨[1, 2, 3], .CL_INT⟩)) [blank_bin] 1 = .ok
      [{ bin_name := bin_name32 [97],
         object := { type := .CL_INT, sz := 3, u := .blob [1, 2, 3] } }] ∧
    ¬ tag_matches_source (.AS_BYTES ⟨[1, 2, 3], .CL_INT⟩)
        { type := .CL_INT, sz := 3, u := .blob [1, 2, 3] } := by
  refine ⟨by rfl, ?_⟩
  intro h
  obtain ⟨n, hn, _⟩ := h.1 rfl
  cases hn

/-- C10 (amended): for a record whose `Bytes` values carry a blob sub-type
code (none of `Null`, `Int`, `Str`), `as_record_tobins` returns on a record
within bounds, and whenever it returns, every object it wrote (one for each
value of variant `Nil`, `Integer`, `String`, `List`, `Map`, `Bytes` at an
index below `nbins`) has a tag that matches its payload and its source
value. -/
theorem C10_tobins_tag_matches_layout (lib : Externals) (r : as_record) (bins : List cl_bin)
    (nbins : Nat)
    (hbytes : ∀ rb ∈ r.data, ∀ b, rb.value = some (.AS_BYTES b) →
      b.type.is_blob_subtype = true) :
    (nbins ≤ r.size → nbins ≤ bins.length → (∀ rb ∈ r.data, rb.value ≠ none) →
      ∃ bins1, as_record_tobins lib r bins nbins = .ok bins1) ∧
    ∀ bins1, as_record_tobins lib r bins nbins = .ok bins1 →
      ∀ i, i < nbins → ∃ (rb : as_bin) (v : as_val) (b1 : cl_bin),
        r.data[i]? = some rb ∧ rb.value = some v ∧ bins1[i]? = some b1 ∧
        (v.is_convertible = true → tag_matches_source v b1.object) := by
  refine ⟨?_, ?_⟩
  · intro h1 h2 h3
    exact tobins_loop_total lib r.data nbins 0 bins (by simpa using h1) (by simpa using h2) h3
  · intro bins1 hrun i hi
    obtain ⟨_, _, hin⟩ := tobins_loop_ok lib r.data nbins 0 bins bins1 hrun
    obtain ⟨rb, b, v, hrb, _, hv, hres⟩ := hin i (Nat.zero_le i) (by omega)
    refine ⟨rb, v, _, hrb, hv, hres, ?_⟩
    intro hconv
    apply tobins_object_tag_matches lib b.object v hconv
    intro bt hbt
    have hmem : rb ∈ r.data := List.getElem?_mem hrb
    exact hbytes rb hmem bt (by rw [hv, hbt])

/-- Witness of C10 (amended): a `Bytes` value of sub-type `CL_JAVA_BLOB` in
bin `a`. -/
theorem C10_tobins_tag_matches_layout_witness :
    (∀ rb ∈ (rec_single (.AS_BYTES ⟨[1, 2, 3], .CL_JAVA_BLOB⟩)).data, ∀ b,
      rb.value = some (.AS_BYTES b) → b.type.is_blob_subtype = true) ∧
    ∃ bins1 b1,
      as_record_tobins lp64 (rec_single (.AS_BYTES ⟨[1, 2, 3], .CL_JAVA_BLOB⟩)) [blank_bin] 1 =
        .ok bins1 ∧
      bins1[0]? = some b1 ∧
      tag_matches_source (.AS_BYTES ⟨[1, 2, 3], .CL_JAVA_BLOB⟩) b1.object := by
  have hb : ∀ rb ∈ (rec_single (.AS_BYTES ⟨[1, 2, 3], .CL_JAVA_BLOB⟩)).data, ∀ b,
      rb.value = some (.AS_BYTES b) → b.type.is_blob_subtype = true := by
    intro rb hrb b hv
    simp only [rec_single, List.mem_singleton] at hrb
    subst hrb
    simp only [Option.some.injEq, as_val.AS_BYTES.injEq] at hv
    subst hv
    decide
  have h := C10_tobins_tag_matches_layout lp64
    (rec_single (.AS_BYTES ⟨[1, 2, 3], .CL_JAVA_BLOB⟩)) [blank_bin] 1 hb
  obtain ⟨bins1, hrun⟩ := h.1 (by decide) (by decide) (by simp [rec_single])
  obtain ⟨rb, v, b1, h1, h2, h3, h4⟩ := h.2 bins1 hrun 0 (by decide)
  simp only [rec_single, List.getElem?_cons_zero, Option.some.injEq] at h1
  subst h1
  cases Option.some.inj h2
  exact ⟨hb, bins1, b1, hrun, h3, h4 rfl⟩

/-! ## The claims on the policy translator and the status adapter -/

/-- C11: for every remove policy and every initial write-params structure,
`as_policy_remove_towp` gives exactly what `as_policy_write_towp` gives for
the write policy with the same generation mode, generation number, timeout
and replication mode and with the uniqueness flag off, from the same initial
structure (also when the target is absent). -/
theorem C11_remove_towp_is_write_towp_not_unique (p : as_policy_remove)
    (wp : Option cl_write_parameters) :
    as_policy_remove_towp (some p) wp =
      as_policy_write_towp
        (some { unique := false, gen := p.gen, generation := p.generation,
                timeout := p.timeout, repl := p.repl }) wp := by
  cases wp with
  | none => rfl
  | some wp => rfl

/-- C12: for every write policy, the `w_pol` that `as_policy_write_towp`
produces is async for replication mode `Async`, one-shot for `OneShot`, and
retry for every other replication mode. -/
theorem C12_write_towp_replication (policy : as_policy_write) (wp : cl_write_parameters) :
    ∃ wp1, as_policy_write_towp (some policy) (some wp) = some wp1 ∧
      (policy.repl = .AS_POLICY_REPL_ASYNC → wp1.w_pol = .CL_WRITE_ASYNC) ∧
      (policy.repl = .AS_POLICY_REPL_ONESHOT → wp1.w_pol = .CL_WRITE_ONESHOT) ∧
      (policy.repl ≠ .AS_POLICY_REPL_ASYNC → policy.repl ≠ .AS_POLICY_REPL_ONESHOT →
        wp1.w_pol = .CL_WRITE_RETRY) := by
  obtain ⟨u, g, n, t, rp⟩ := policy
  cases g <;> cases rp <;> simp [as_policy_write_towp]

/-- Witness of C12: a policy with a replication mode that is neither `Async`
nor `OneShot`, on a target that held `CL_WRITE_ASYNC`. -/
theorem C12_write_towp_replication_witness :
    ∃ wp1, as_policy_write_towp
        (some { unique := true, gen := .AS_POLICY_GEN_GT, generation := 7, timeout := 500,
                repl := .AS_POLICY_REPL_OTHER 0 })
        (some { unique := false, unique_bin := true, use_generation := true,
                use_generation_gt := false, use_generation_dup := true, generation := 3,
                timeout_ms := 1, record_ttl := 9, w_pol := .CL_WRITE_ASYNC }) = some wp1 ∧
      wp1.w_pol = .CL_WRITE_RETRY := by
  obtain ⟨wp1, h, _, _, h3⟩ := C12_write_towp_replication
    { unique := true, gen := .AS_POLICY_GEN_GT, generation := 7, timeout := 500,
      repl := .AS_POLICY_REPL_OTHER 0 }
    { unique := false, unique_bin := true, use_generation := true,
      use_generation_gt := false, use_generation_dup := true, generation := 3,
      timeout_ms := 1, record_ttl := 9, w_pol := .CL_WRITE_ASYNC }
  exact ⟨wp1, h, h3 (by decide) (by decide)⟩

/-- C13: for every write policy and every initial write-params structure,
after `as_policy_write_towp` the `unique` flag is the policy's, `unique_bin`
is off, `timeout_ms` is the policy's timeout and `record_ttl` is 0. -/
theorem C13_write_towp_unique_timeout_ttl (policy : as_policy_write)
    (wp : cl_write_parameters) :
    ∃ wp1, as_policy_write_towp (some policy) (some wp) = some wp1 ∧
      wp1.unique = policy.unique ∧ wp1.unique_bin = false ∧
      wp1.timeout_ms = policy.timeout ∧ wp1.record_ttl = 0 := by
  obtain ⟨u, g, n, t, rp⟩ := policy
  cases g <;> cases rp <;> simp [as_policy_write_towp]

/-- C14: with an absent policy, `as_policy_write_towp` and
`as_policy_remove_towp` leave the target exactly as it was, and with an
absent target they produce nothing. -/
theorem C14_towp_absent_policy_or_target (wp : Option cl_write_parameters)
    (wpolicy : Option as_policy_write) (rpolicy : Option as_policy_remove) :
    as_policy_write_towp none wp = wp ∧ as_policy_remove_towp none wp = wp ∧
    as_policy_write_towp wpolicy none = none ∧ as_policy_remove_towp rpolicy none = none := by
  refine ⟨rfl, rfl, ?_, ?_⟩
  · cases wpolicy <;> rfl
  · cases rpolicy <;> rfl

/-- C15: for every return code, `as_error_fromrc` returns the success status
iff the code is zero and the generic failure status otherwise, and the status
it returns is the one it stores in the error object's `code`. -/
theorem C15_error_fromrc (err : as_error) (rc : Int) :
    ((as_error_fromrc err rc).2 = .AEROSPIKE_OK ↔ rc = 0) ∧
    ((as_error_fromrc err rc).2 = .AEROSPIKE_ERR ↔ rc ≠ 0) ∧
    (as_error_fromrc err rc).1.code = (as_error_fromrc err rc).2 := by
  by_cases h : rc = 0 <;> simp [as_error_fromrc, h]

/-- C19: for a write or remove policy whose generation mode is none of EQ,
GT, DUP, `as_policy_write_towp` and `as_policy_remove_towp` leave the
`generation` field of the target as it was before the call. -/
theorem C19_towp_generation_kept (wpolicy : as_policy_write) (rpolicy : as_policy_remove)
    (wp : cl_write_parameters) :
    ((wpolicy.gen ≠ .AS_POLICY_GEN_EQ ∧ wpolicy.gen ≠ .AS_POLICY_GEN_GT ∧
        wpolicy.gen ≠ .AS_POLICY_GEN_DUP) →
      ∃ wp1, as_policy_write_towp (some wpolicy) (some wp) = some wp1 ∧
        wp1.generation = wp.generation) ∧
    ((rpolicy.gen ≠ .AS_POLICY_GEN_EQ ∧ rpolicy.gen ≠ .AS_POLICY_GEN_GT ∧
        rpolicy.gen ≠ .AS_POLICY_GEN_DUP) →
      ∃ wp1, as_policy_remove_towp (some rpolicy) (some wp) = some wp1 ∧
        wp1.generation = wp.generation) := by
  obtain ⟨u, g, n, t, rp⟩ := wpolicy
  obtain ⟨g2, n2, t2, rp2⟩ := rpolicy
  refine ⟨?_, ?_⟩
  · cases g <;> cases rp <;> simp [as_policy_write_towp]
  · cases g2 <;> cases rp2 <;> simp [as_policy_remove_towp]

/-- Witness of C19: policies of another generation mode with generation
number 7, on a target whose `generation` was 3. -/
theorem C19_towp_generation_kept_witness :
    (∃ wp1, as_policy_write_towp
        (some { unique := true, gen := .AS_POLICY_GEN_OTHER 0, generation := 7, timeout := 500,
                repl := .AS_POLICY_REPL_ASYNC })
        (some { unique := false, unique_bin := true, use_generation := true,
                use_generation_gt := false, use_generation_dup := true, generation := 3,
                timeout_ms := 1, record_ttl := 9, w_pol := .CL_WRITE_RETRY }) = some wp1 ∧
      wp1.generation = 3) ∧
    (∃ wp1, as_policy_remove_towp
        (some { gen := .AS_POLICY_GEN_OTHER 0, generation := 7, timeout := 500,
                repl := .AS_POLICY_REPL_ASYNC })
        (some { unique := false, unique_bin := true, use_generation := true,
                use_generation_gt := false, use_generation_dup := true, generation := 3,
                timeout_ms := 1, record_ttl := 9, w_pol := .CL_WRITE_RETRY }) = some wp1 ∧
      wp1.generation = 3) := by
  have h := C19_towp_generation_kept
    { unique := true, gen := .AS_POLICY_GEN_OTHER 0, generation := 7, timeout := 500,
      repl := .AS_POLICY_REPL_ASYNC }
    { gen := .AS_POLICY_GEN_OTHER 0, generation := 7, timeout := 500,
      repl := .AS_POLICY_REPL_ASYNC }
    { unique := false, unique_bin := true, use_generation := true,
      use_generation_gt := false, use_generation_dup := true, generation := 3,
      timeout_ms := 1, record_ttl := 9, w_pol := .CL_WRITE_RETRY }
  exact ⟨h.1 (by decide), h.2 (by decide)⟩

/-! ## The claims on the two conversions from bins, on names and on other variants -/

theorem frombins_step_agrees_val_frombin (lib : Externals) (r : as_record) (bin : cl_bin)
    (v : Option as_val)
    (htag : bin.object.type = .CL_INT ∨ bin.object.type = .CL_STR ∨
      bin.object.type = .CL_LIST ∨ bin.object.type = .CL_MAP)
    (hval : as_val_frombin lib lib.msgpack bin = .ok v) :
    as_record_frombins_step lib r bin = .ok (as_record_set lib r bin.bin_name v) := by
  unfold as_val_frombin at hval
  unfold as_record_frombins_step
  rcases htag with h | h | h | h
  · simp only [h] at hval ⊢
    cases hr : bin.object.u.read_i64 with
    | error e => simp [hr] at hval
    | ok i =>
      simp only [hr, Except.ok.injEq] at hval
      subst hval
      rfl
  · simp only [h] at hval ⊢
    cases hr : bin.object.u.read_str with
    | error e => simp [hr] at hval
    | ok i =>
      simp only [hr, Except.ok.injEq] at hval
      subst hval
      rfl
  · simp only [h] at hval ⊢
    cases hr : bin.object.u.read_blob bin.object.sz with
    | error e => simp [hr] at hval
    | ok buf =>
      cases hd : lib.msgpack.deserialize buf with
      | none => simp [hr, hd] at hval
      | some w =>
        simp only [hr, hd, Except.ok.injEq] at hval
        subst hval
        simp [hd]
  · simp only [h] at hval ⊢
    cases hr : bin.object.u.read_blob bin.object.sz with
    | error e => simp [hr] at hval
    | ok buf =>
      cases hd : lib.msgpack.deserialize buf with
      | none => simp [hr, hd] at hval
      | some w =>
        simp only [hr, hd, Except.ok.injEq] at hval
        subst hval
        simp [hd]

/-- C16 (the code at a failing input): whatever sub-type code `t` a fresh
`as_bytes` carries, for the 3-byte bins tagged `CL_JAVA_BLOB` and
`CL_CSHARP_BLOB` the value `as_val_frombin` returns carries the bin's tag,
while the value `as_record_frombins` stores carries `t` for both. -/
theorem C16_frombins_value_not_val_frombin_value (t : cl_type) :
    as_val_frombin { lp64 with bytes_new_type := t } toy_msgpack
        (blob_bin .CL_JAVA_BLOB [1, 2, 3]) =
      .ok (some (.AS_BYTES ⟨[1, 2, 3], .CL_JAVA_BLOB⟩)) ∧
    as_record_frombins { lp64 with bytes_new_type := t } ⟨1, []⟩
        [blob_bin .CL_JAVA_BLOB [1, 2, 3]] 1 =
      .ok ⟨1, [⟨name_field 16 (bin_name32 [97]), some (.AS_BYTES ⟨[1, 2, 3], t⟩)⟩]⟩ ∧
    as_val_frombin { lp64 with bytes_new_type := t } toy_msgpack
        (blob_bin .CL_CSHARP_BLOB [1, 2, 3]) =
      .ok (some (.AS_BYTES ⟨[1, 2, 3], .CL_CSHARP_BLOB⟩)) ∧
    as_record_frombins { lp64 with bytes_new_type := t } ⟨1, []⟩
        [blob_bin .CL_CSHARP_BLOB [1, 2, 3]] 1 =
      .ok ⟨1, [⟨name_field 16 (bin_name32 [97]), some (.AS_BYTES ⟨[1, 2, 3], t⟩)⟩]⟩ :=
  ⟨by rfl, by rfl, by rfl, by rfl⟩

/-- C17: on a record within bounds `as_record_tobins` returns, and whenever
it returns, the array keeps its length, the bins from `nbins` on are as
before, and the name field of every bin below `nbins` is the `memcpy` of
`AS_BIN_NAME_MAX` bytes of the record bin's name field: when both fields hold
at least that many bytes, its first `AS_BIN_NAME_MAX` bytes are the first
`AS_BIN_NAME_MAX` bytes of the source field (exactly that many, also for a
longer source name), the bytes after them are as before, and the field keeps
its size. -/
theorem C17_tobins_name_copy (lib : Externals) (r : as_record) (bins : List cl_bin)
    (nbins : Nat) :
    (nbins ≤ r.size → nbins ≤ bins.length → (∀ rb ∈ r.data, rb.value ≠ none) →
      ∃ bins1, as_record_tobins lib r bins nbins = .ok bins1) ∧
    ∀ bins1, as_record_tobins lib r bins nbins = .ok bins1 →
      bins1.length = bins.length ∧
      (∀ j, nbins ≤ j → bins1[j]? = bins[j]?) ∧
      ∀ i, i < nbins → ∃ (rb : as_bin) (b b1 : cl_bin),
        r.data[i]? = some rb ∧ bins[i]? = some b ∧ bins1[i]? = some b1 ∧
        b1.bin_name = memcpy b.bin_name rb.name lib.AS_BIN_NAME_MAX ∧
        (lib.AS_BIN_NAME_MAX ≤ rb.name.length → lib.AS_BIN_NAME_MAX ≤ b.bin_name.length →
          b1.bin_name.take lib.AS_BIN_NAME_MAX = rb.name.take lib.AS_BIN_NAME_MAX ∧
          (b1.bin_name.take lib.AS_BIN_NAME_MAX).length = lib.AS_BIN_NAME_MAX ∧
          b1.bin_name.drop lib.AS_BIN_NAME_MAX = b.bin_name.drop lib.AS_BIN_NAME_MAX ∧
          b1.bin_name.length = b.bin_name.length) := by
  refine ⟨?_, ?_⟩
  · intro h1 h2 h3
    exact tobins_loop_total lib r.data nbins 0 bins (by simpa using h1) (by simpa using h2) h3
  · intro bins1 hrun
    obtain ⟨hlen, hout, hin⟩ := tobins_loop_ok lib r.data nbins 0 bins bins1 hrun
    refine ⟨hlen, fun j hj => hout j (Or.inr (by omega)), ?_⟩
    intro i hi
    obtain ⟨rb, b, v, hrb, hb, _, hres⟩ := hin i (Nat.zero_le i) (by omega)
    refine ⟨rb, b, _, hrb, hb, hres, rfl, ?_⟩
    intro hsrc hdst
    have htl : (rb.name.take lib.AS_BIN_NAME_MAX).length = lib.AS_BIN_NAME_MAX := by
      rw [List.length_take]; omega
    simp only [memcpy]
    refine ⟨?_, ?_, ?_, ?_⟩
    · rw [List.take_append_eq_append_take, htl, Nat.sub_self, List.take_zero,
        List.append_nil, List.take_take, Nat.min_self]
    · rw [List.length_take, List.length_append, htl]; omega
    · rw [List.drop_append_eq_append_drop, htl, Nat.sub_self, List.drop_zero,
        List.drop_of_length_le (Nat.le_of_eq htl), List.nil_append]
    · rw [List.length_append, htl, List.length_drop]; omega

/-- Witness of C17: a 20-byte source name, `AS_BIN_NAME_MAX` = 16 and a
32-byte destination field that held the byte 66 throughout. -/
theorem C17_tobins_name_copy_witness :
    ∃ bins1 b1, as_record_tobins lp64 rec_long_name [used_bin] 1 = .ok bins1 ∧
      bins1[0]? = some b1 ∧
      b1.bin_name.take 16 = (List.replicate 20 65).take 16 ∧
      (b1.bin_name.take 16).length = 16 ∧
      b1.bin_name.drop 16 = (List.replicate 32 66).drop 16 ∧
      b1.bin_name.length = 32 := by
  have h := C17_tobins_name_copy lp64 rec_long_name [used_bin] 1
  obtain ⟨bins1, hrun⟩ := h.1 (by decide) (by decide) (by simp [rec_long_name])
  obtain ⟨rb, b, b1, h1, h2, h3, _, h5⟩ := (h.2 bins1 hrun).2.2 0 (by decide)
  simp only [rec_long_name, List.getElem?_cons_zero, Option.some.injEq] at h1
  simp only [List.getElem?_cons_zero, Option.some.injEq] at h2
  subst h1 h2
  obtain ⟨h6, h7, h8, h9⟩ := h5 (by decide) (by decide)
  exact ⟨bins1, b1, hrun, h3, h6, h7, h8, h9⟩

/-- C18: on a record within bounds `as_record_tobins` returns, and whenever
it returns, a destination bin whose record bin holds a value of a variant
other than `Nil`, `Integer`, `String`, `List`, `Map`, `Bytes` keeps the
object it had before the call and takes the copied name, while every other
bin below `nbins` holds the object converted from its record bin's value. -/
theorem C18_tobins_other_variant_keeps_object (lib : Externals) (r : as_record)
    (bins : List cl_bin) (nbins : Nat) :
    (nbins ≤ r.size → nbins ≤ bins.length → (∀ rb ∈ r.data, rb.value ≠ none) →
      ∃ bins1, as_record_tobins lib r bins nbins = .ok bins1) ∧
    ∀ bins1, as_record_tobins lib r bins nbins = .ok bins1 →
      ∀ (i : Nat) (rb : as_bin) (b : cl_bin) (c : Nat), i < nbins →
        r.data[i]? = some rb → rb.value = some (.AS_OTHER c) → bins[i]? = some b →
        bins1[i]? = some
          { bin_name := memcpy b.bin_name rb.name lib.AS_BIN_NAME_MAX, object := b.object } ∧
        ∀ j, j < nbins → j ≠ i → ∃ (rbj : as_bin) (bj : cl_bin) (vj : as_val),
          r.data[j]? = some rbj ∧ bins[j]? = some bj ∧ rbj.value = some vj ∧
          bins1[j]? = some
            { bin_name := memcpy bj.bin_name rbj.name lib.AS_BIN_NAME_MAX,
              object := as_record_tobins_object lib bj.object vj } := by
  refine ⟨?_, ?_⟩
  · intro h1 h2 h3
    exact tobins_loop_total lib r.data nbins 0 bins (by simpa using h1) (by simpa using h2) h3
  · intro bins1 hrun i rb b c hi hrb hv hb
    obtain ⟨_, _, hin⟩ := tobins_loop_ok lib r.data nbins 0 bins bins1 hrun
    refine ⟨?_, ?_⟩
    · obtain ⟨rb1, b1, v1, hrb1, hb1, hv1, hres⟩ := hin i (Nat.zero_le i) (by omega)
      rw [hrb] at hrb1
      cases Option.some.inj hrb1
      rw [hb] at hb1
      cases Option.some.inj hb1
      rw [hv] at hv1
      cases Option.some.inj hv1
      exact hres
    · intro j hj _
      exact hin j (Nat.zero_le j) (by omega)

/-- Witness of C18: bin `a` of a variant without a case, bin `b` an
`Integer 7`; the first destination bin held the integer object 8. -/
theorem C18_tobins_other_variant_keeps_object_witness :
    ∃ bins1, as_record_tobins lp64 rec_other_int [used_bin, blank_bin] 2 = .ok bins1 ∧
      bins1[0]? = some
        { bin_name := memcpy used_bin.bin_name (name_field 16 [97]) 16,
          object := used_bin.object } ∧
      ∃ (rbj : as_bin) (bj : cl_bin) (vj : as_val),
        rec_other_int.data[1]? = some rbj ∧ [used_bin, blank_bin][1]? = some bj ∧
        rbj.value = some vj ∧
        bins1[1]? = some
          { bin_name := memcpy bj.bin_name rbj.name 16,
            object := as_record_tobins_object lp64 bj.object vj } := by
  have h := C18_tobins_other_variant_keeps_object lp64 rec_other_int [used_bin, blank_bin] 2
  obtain ⟨bins1, hrun⟩ := h.1 (by decide) (by decide) (by simp [rec_other_int])
  obtain ⟨h1, h2⟩ := h.2 bins1 hrun 0 ⟨name_field 16 [97], some (.AS_OTHER 2)⟩ used_bin 2
    (by decide) rfl rfl rfl
  exact ⟨bins1, hrun, h1, h2 1 (by decide) (by decide)⟩

end Shim
